import Mathlib

/-!
# Lifeline renewal of prefix leases (`chain/lifeline_tx.go`) and key creation
(`cmd/quarkcli/create/create.go`)

A shallow embedding of `addLife`, `LifelineTx.Execute` and `createFunc`.

* Go's `error` results are `Option`s (`none` is `nil`).
* Unsigned 64-bit fields are natural numbers; the one addition of the code
  is taken modulo `2 ^ 64`, and an integer division with a zero divisor is a
  run-time panic, which the outcome type records.
* The database handle is explicit state: every operation takes the state and
  returns the state it leaves.
-/

namespace SpacesVM

/-! ## Data model -/

/-- A Go byte slice. -/
abbrev Bytes := List (Fin 256)

/-- Values of Go's `error` interface met in package `chain`: the sentinel
`ErrPrefixMissing` and any error produced by the key-value substrate. -/
inductive ChainError where
  | ErrPrefixMissing
  | substrate (code : Nat)
  deriving DecidableEq, Repr

/-- Modelled from the spec: the type declaration `PrefixInfo` is not among the
sources; its fields are those of the LeaseRecord of section 3. `Expiry` and
`Units` are unsigned 64-bit integers, as `blockTime` is in `Execute`. -/
structure PrefixInfo where
  Owner : Bytes
  Created : Nat
  LastUpdated : Nat
  Expiry : Nat
  Units : Nat
  deriving DecidableEq, Repr

/-- Number of values of the fixed-width type of `Expiry`. -/
def expiryModulus : Nat := 2 ^ 64

/-- Go integer division: a zero divisor is a run-time panic (`none`). -/
def goDiv (a b : Nat) : Option Nat :=
  if b = 0 then none else some (a / b)

/-- How a call ends: it returns an `error` (or `nil`) and leaves a database
state, or it panics. -/
inductive Outcome (σ : Type) where
  | returned (err : Option ChainError) (db : σ)
  | panicked
  deriving DecidableEq, Repr

/-- The declarations `addLife` uses that are not in its file: the constants
`ExpiryTime` and `PrefixRenewalDiscount`, the cost function `prefixUnits`, and
the two storage helpers over a database state `σ`. `GetPrefixInfo` returns
Go's triple `(*PrefixInfo, bool, error)`; `PutPrefixInfo` returns its `error`
and the state it leaves. -/
structure Env (σ : Type) where
  ExpiryTime : Nat
  PrefixRenewalDiscount : Nat
  prefixUnits : Bytes → Nat
  GetPrefixInfo : σ → Bytes → Option PrefixInfo × Bool × Option ChainError
  PutPrefixInfo : σ → Bytes → PrefixInfo → Nat → Option ChainError × σ

/-- The local variable `prefixPenalty` of `addLife` (lines 27 to 30): the
quotient `prefixUnits(prefix) / PrefixRenewalDiscount`, set to 1 when it is
below 1; `none` when the division panics. -/
def prefixPenalty {σ : Type} (env : Env σ) (pfx : Bytes) : Option Nat :=
  match goDiv (env.prefixUnits pfx) env.PrefixRenewalDiscount with
  | none => none
  | some q => some (if q < 1 then 1 else q)

/-- `addLife` of `chain/lifeline_tx.go`. -/
def addLife {σ : Type} (env : Env σ) (db : σ) (pfx : Bytes) : Outcome σ :=
  match env.GetPrefixInfo db pfx with
  | (_, _, some err) => .returned (some err) db
  | (_, false, none) => .returned (some .ErrPrefixMissing) db
  | (none, true, none) => .panicked
  | (some i, true, none) =>
    let lastExpiry := i.Expiry
    match prefixPenalty env pfx with
    | none => .panicked
    | some penalty =>
      match goDiv env.ExpiryTime i.Units with
      | none => .panicked
      | some perUnit =>
        match goDiv perUnit penalty with
        | none => .panicked
        | some increment =>
          let i1 := { i with Expiry := (i.Expiry + increment) % expiryModulus }
          match env.PutPrefixInfo db pfx i1 lastExpiry with
          | (err, db1) => .returned err db1

/-- Modelled from the spec: the declaration of `BaseTx` is not among the
sources; only the field `Prefix` that `Execute` reads is kept. -/
structure BaseTx where
  Prefix : Bytes
  deriving DecidableEq, Repr

/-- `LifelineTx` of `chain/lifeline_tx.go`. -/
structure LifelineTx where
  BaseTx : BaseTx
  deriving DecidableEq, Repr

/-- `LifelineTx.Execute` of `chain/lifeline_tx.go`. -/
def LifelineTx.Execute {σ : Type} (env : Env σ) (l : LifelineTx) (db : σ)
    (_blockTime : Nat) : Outcome σ :=
  addLife env db l.BaseTx.Prefix

/-- The penalty divisor as the renewal algorithm of section 4.2 words it:
`max(1, cost / RenewalDiscount)`. -/
def specPenalty (cost discount : Nat) : Nat :=
  max 1 (cost / discount)

/-- The time credit of one renewal as section 4.2 words it:
`BaseExpiryBudget / Units / penalty`, divisions left to right. -/
def specIncrement (budget units cost discount : Nat) : Nat :=
  budget / units / specPenalty cost discount

/-! ## The lease store of section 4.1 -/

/-- Modelled from the spec: the storage layer is not among the sources. The
state holds the primary index (prefix to lease record), the expiry index (the
set of `(expiry, prefix)` keys, as its membership test) and the failure, if
any, the substrate answers a read or a batch commit with. -/
structure Store where
  primary : Bytes → Option PrefixInfo
  expiryIndex : Nat → Bytes → Bool
  readFault : Option ChainError
  writeFault : Option ChainError

/-- Modelled from the spec: `GetPrefixInfo` is not among the sources; this is
`GetLease` of section 4.1: `found = false` if the record is absent, and a
substrate failure is handed back as it is. -/
def Store.GetPrefixInfo (s : Store) (pfx : Bytes) :
    Option PrefixInfo × Bool × Option ChainError :=
  match s.readFault with
  | some err => (none, false, some err)
  | none =>
    match s.primary pfx with
    | none => (none, false, none)
    | some i => (some i, true, none)

/-- Modelled from the spec: `PutPrefixInfo` is not among the sources; this is
`PutLease` of section 4.1. It overwrites the primary record and, if the prior
expiry differs from the new one, deletes the expiry-index entry at the prior
expiry (nothing is deleted when the prior expiry is the sentinel `unset`) and
inserts one at the new expiry. The batch commits whole or, on a substrate
failure, not at all, and the failure is handed back as it is. -/
def Store.PutPrefixInfo (unset : Nat) (s : Store) (pfx : Bytes) (i : PrefixInfo)
    (lastExpiry : Nat) : Option ChainError × Store :=
  match s.writeFault with
  | some err => (some err, s)
  | none =>
    (none,
      { s with
        primary := fun p => if p = pfx then some i else s.primary p
        expiryIndex :=
          if lastExpiry ≠ i.Expiry then
            fun e p =>
              if e = i.Expiry ∧ p = pfx then true
              else if lastExpiry ≠ unset ∧ e = lastExpiry ∧ p = pfx then false
              else s.expiryIndex e p
          else s.expiryIndex })

/-- The environment of `addLife` over the lease store of section 4.1. -/
def storeEnv (expiryTime discount : Nat) (units : Bytes → Nat) (unset : Nat) :
    Env Store where
  ExpiryTime := expiryTime
  PrefixRenewalDiscount := discount
  prefixUnits := units
  GetPrefixInfo := Store.GetPrefixInfo
  PutPrefixInfo := Store.PutPrefixInfo unset

/-- Prefix `pfx` has exactly one expiry-index entry, keyed at `e`. -/
def Store.soleExpiryEntry (s : Store) (pfx : Bytes) (e : Nat) : Prop :=
  ∀ t, s.expiryIndex t pfx = true ↔ t = e

/-- The expiry of the stored lease record of `pfx`, if there is one. -/
def Store.expiryOf (s : Store) (pfx : Bytes) : Option Nat :=
  (s.primary pfx).map PrefixInfo.Expiry

/-- A sequence of `n` calls of `addLife` on one prefix, each of which has to
return `nil`, with no other writer in between. -/
def renewTimes (env : Env Store) (pfx : Bytes) : Nat → Store → Option Store
  | 0, s => some s
  | n + 1, s =>
    match addLife env s pfx with
    | .returned none s1 => renewTimes env pfx n s1
    | _ => none

/-! ## The `create` command -/

/-- Values of Go's `error` interface met in `createFunc`: the two sentinels of
package `os` it names, and any other error of the operating system or of the
key generator. -/
inductive OsError where
  | ErrExist
  | ErrNotExist
  | other (code : Nat)
  deriving DecidableEq, Repr

/-- `PublicKey` of `crypto/crypto.go`. -/
structure PublicKey where
  PublicKey : Bytes
  Addr : String
  deriving DecidableEq, Repr

/-- `PrivateKey` of `crypto/crypto.go`; the pointer field `pk` may be nil. -/
structure PrivateKey where
  PrivateKey : Bytes
  pk : Option PublicKey
  deriving DecidableEq, Repr

/-- What `createFunc` calls outside its file, over an explicit state `ω` of
the machine (file system, entropy source, terminal): `os.Stat` (only its error
is used), `errors.Is(err, os.ErrNotExist)`, `crypto.NewPrivateKey`,
`os.WriteFile` with path, contents and permission bits, the methods `Bytes`
and `PublicKey().Address()`, and `color.Green` with its two arguments. -/
structure Machine (ω : Type) where
  Stat : ω → String → Option OsError
  isNotExist : OsError → Bool
  NewPrivateKey : ω → Except OsError PrivateKey × ω
  WriteFile : ω → String → Bytes → Nat → Option OsError × ω
  keyBytes : PrivateKey → Bytes
  keyAddress : PrivateKey → String
  Green : ω → String → String → ω

/-- `createFunc` of `cmd/quarkcli/create/create.go`; `privateKeyFile` is the
package variable the flag sets. -/
def createFunc {ω : Type} (m : Machine ω) (privateKeyFile : String) (w : ω) :
    Option OsError × ω :=
  match m.Stat w privateKeyFile with
  | none => (some .ErrExist, w)
  | some err =>
    if !m.isNotExist err then (some err, w)
    else
      match m.NewPrivateKey w with
      | (.error e, w1) => (some e, w1)
      | (.ok pk, w1) =>
        match m.WriteFile w1 privateKeyFile (m.keyBytes pk) 0o600 with
        | (some e, w2) => (some e, w2)
        | (none, w2) => (none, m.Green w2 (m.keyAddress pk) privateKeyFile)

/-! ## Concrete environments for the examples -/

/-- The log of the calls of `PutPrefixInfo`: prefix, record and prior expiry
of each call, latest first. -/
abbrev PutLog := List (Bytes × PrefixInfo × Nat)

/-- An environment whose database state is the log of the writes: every read
answers `got`, and every write succeeds and is recorded. -/
def logEnv (expiryTime discount : Nat) (units : Bytes → Nat)
    (got : Option PrefixInfo × Bool × Option ChainError) : Env PutLog where
  ExpiryTime := expiryTime
  PrefixRenewalDiscount := discount
  prefixUnits := units
  GetPrefixInfo := fun _ _ => got
  PutPrefixInfo := fun log pfx i lastExpiry => (none, (pfx, i, lastExpiry) :: log)

/-- A lease record with the given expiry and units. -/
def leaseOf (expiry units : Nat) : PrefixInfo :=
  ⟨[1, 2, 3], 7, 9, expiry, units⟩

/-- A store holding one lease, of prefix `pfx`, indexed at its expiry. -/
def storeOf (pfx : Bytes) (i : PrefixInfo) (writeFault : Option ChainError) : Store where
  primary := fun p => if p = pfx then some i else none
  expiryIndex := fun e p => decide (e = i.Expiry ∧ p = pfx)
  readFault := none
  writeFault := writeFault

/-- A write helper that is not all-or-nothing: it deletes the expiry-index
entry at the prior expiry first, and a failure of the substrate on the write
that follows is handed back with that deletion in place. -/
def Store.putStepwise (s : Store) (pfx : Bytes) (i : PrefixInfo) (lastExpiry : Nat) :
    Option ChainError × Store :=
  match s.writeFault with
  | some err =>
    (some err,
      { s with
        expiryIndex := fun e p =>
          if e = lastExpiry ∧ p = pfx then false else s.expiryIndex e p })
  | none =>
    (none,
      { s with
        primary := fun p => if p = pfx then some i else s.primary p
        expiryIndex := fun e p =>
          if e = i.Expiry ∧ p = pfx then true
          else if e = lastExpiry ∧ p = pfx then false
          else s.expiryIndex e p })

/-- The environment of `addLife` over a store written stepwise. -/
def stepwiseEnv (expiryTime discount : Nat) (units : Bytes → Nat) : Env Store where
  ExpiryTime := expiryTime
  PrefixRenewalDiscount := discount
  prefixUnits := units
  GetPrefixInfo := Store.GetPrefixInfo
  PutPrefixInfo := Store.putStepwise

/-- A machine whose state is the list of files (path, contents, permission
bits): a path that is present stats without error, one that is absent stats
with `statErr`; the key generator always yields `key`. -/
def listMachine (statErr : OsError) (key : PrivateKey) :
    Machine (List (String × Bytes × Nat)) where
  Stat := fun w path => if w.any (fun f => f.1 == path) then none else some statErr
  isNotExist := fun e => e == OsError.ErrNotExist
  NewPrivateKey := fun w => (.ok key, w)
  WriteFile := fun w path data perm => (none, (path, data, perm) :: w)
  keyBytes := fun k => k.PrivateKey
  keyAddress := fun k => (k.pk.map PublicKey.Addr).getD ""
  Green := fun w _ _ => w

/-! ## Shared lemmas on `addLife` -/

theorem goDiv_pos (a b : Nat) (hb : 0 < b) : goDiv a b = some (a / b) := by
  unfold goDiv
  rw [if_neg (Nat.pos_iff_ne_zero.mp hb)]

theorem goDiv_zero (a : Nat) : goDiv a 0 = none := by
  unfold goDiv
  rw [if_pos rfl]

theorem specPenalty_pos (cost discount : Nat) : 0 < specPenalty cost discount := by
  unfold specPenalty
  exact lt_of_lt_of_le Nat.one_pos (le_max_left 1 _)

theorem prefixPenalty_eq_spec {σ : Type} (env : Env σ) (pfx : Bytes)
    (hd : 0 < env.PrefixRenewalDiscount) :
    prefixPenalty env pfx
      = some (specPenalty (env.prefixUnits pfx) env.PrefixRenewalDiscount) := by
  unfold prefixPenalty specPenalty
  rw [goDiv_pos _ _ hd]
  by_cases hq : env.prefixUnits pfx / env.PrefixRenewalDiscount < 1
  · simp only [if_pos hq]
    rw [max_eq_left (le_of_lt hq)]
  · simp only [if_neg hq]
    rw [max_eq_right (not_lt.mp hq)]

theorem addLife_found {σ : Type} (env : Env σ) (db : σ) (pfx : Bytes) (i : PrefixInfo)
    (hget : env.GetPrefixInfo db pfx = (some i, true, none))
    (hd : 0 < env.PrefixRenewalDiscount) (hu : 0 < i.Units) :
    addLife env db pfx =
      .returned
        (env.PutPrefixInfo db pfx
          { i with Expiry := (i.Expiry + specIncrement env.ExpiryTime i.Units
              (env.prefixUnits pfx) env.PrefixRenewalDiscount) % expiryModulus }
          i.Expiry).1
        (env.PutPrefixInfo db pfx
          { i with Expiry := (i.Expiry + specIncrement env.ExpiryTime i.Units
              (env.prefixUnits pfx) env.PrefixRenewalDiscount) % expiryModulus }
          i.Expiry).2 := by
  unfold addLife
  rw [hget]
  simp only [prefixPenalty_eq_spec env pfx hd, goDiv_pos _ _ hu,
    goDiv_pos _ _ (specPenalty_pos _ _)]
  rfl

theorem addLife_units_zero {σ : Type} (env : Env σ) (db : σ) (pfx : Bytes) (i : PrefixInfo)
    (hget : env.GetPrefixInfo db pfx = (some i, true, none)) (hu : i.Units = 0) :
    addLife env db pfx = .panicked := by
  unfold addLife
  rw [hget]
  simp only [hu, goDiv_zero]
  cases prefixPenalty env pfx <;> rfl

theorem addLife_returned_of_found {σ : Type} (env : Env σ) (db : σ) (pfx : Bytes)
    (i : PrefixInfo) (err : Option ChainError) (db1 : σ)
    (hget : env.GetPrefixInfo db pfx = (some i, true, none))
    (hret : addLife env db pfx = .returned err db1) :
    0 < i.Units ∧ 0 < env.PrefixRenewalDiscount ∧
      env.PutPrefixInfo db pfx
        { i with Expiry := (i.Expiry + specIncrement env.ExpiryTime i.Units
            (env.prefixUnits pfx) env.PrefixRenewalDiscount) % expiryModulus }
        i.Expiry = (err, db1) := by
  rcases Nat.eq_zero_or_pos env.PrefixRenewalDiscount with hd | hd
  · exfalso
    unfold addLife at hret
    rw [hget] at hret
    have hpen : prefixPenalty env pfx = none := by
      unfold prefixPenalty
      rw [hd, goDiv_zero]
    simp only [hpen] at hret
    cases hret
  · rcases Nat.eq_zero_or_pos i.Units with hu | hu
    · exfalso
      rw [addLife_units_zero env db pfx i hget hu] at hret
      cases hret
    · rw [addLife_found env db pfx i hget hd hu] at hret
      injection hret with h1 h2
      exact ⟨hu, hd, Prod.ext h1 h2⟩

/-! ## Renewal arithmetic of `addLife` -/

/-- C1, as stated, fails: for the record with `Expiry = 2 ^ 64 - 1` and
`Units = 1`, with `ExpiryTime = 1`, `PrefixRenewalDiscount = 1` and
`prefixUnits = 0`, `addLife` hands `PutPrefixInfo` a record whose `Expiry` is
`0`, which is not `e + ExpiryTime / u / max(1, prefixUnits / discount)`. -/
theorem addLife_expiry_wraps :
    addLife (logEnv 1 1 (fun _ => 0) (some (leaseOf (2 ^ 64 - 1) 1), true, none)) [] [47]
        = .returned none [([47], leaseOf 0 1, 2 ^ 64 - 1)] ∧
      (leaseOf 0 1).Expiry ≠ (2 ^ 64 - 1) + 1 / 1 / max 1 (0 / 1) := by
  decide

/-- C1 (amended): when the lease record of the prefix exists with
`Units = u ≥ 1` and `Expiry = e` (and the discount constant is positive),
`addLife` returns what `PutPrefixInfo` returns on a record whose `Expiry` is
`(e + ExpiryTime / u / max(1, prefixUnits(prefix) / PrefixRenewalDiscount))`
modulo `2 ^ 64`, every other field as read, with `e` as the prior expiry. -/
theorem addLife_renews_expiry {σ : Type} (env : Env σ) (db : σ) (pfx : Bytes)
    (i : PrefixInfo) (u e : Nat)
    (hget : env.GetPrefixInfo db pfx = (some i, true, none))
    (hunits : i.Units = u) (hexpiry : i.Expiry = e)
    (hd : 0 < env.PrefixRenewalDiscount) (hu : 1 ≤ u) :
    ∃ i1 : PrefixInfo,
      addLife env db pfx
        = .returned (env.PutPrefixInfo db pfx i1 e).1 (env.PutPrefixInfo db pfx i1 e).2 ∧
      i1.Expiry
        = (e + env.ExpiryTime / u
            / max 1 (env.prefixUnits pfx / env.PrefixRenewalDiscount)) % 2 ^ 64 ∧
      i1.Owner = i.Owner ∧ i1.Created = i.Created ∧
      i1.LastUpdated = i.LastUpdated ∧ i1.Units = i.Units := by
  subst hunits hexpiry
  exact ⟨_, addLife_found env db pfx i hget hd hu, rfl, rfl, rfl, rfl, rfl⟩

/-- The renewal example of the specification: `ExpiryTime = 1_000_000`,
`Units = 10`, `PrefixRenewalDiscount = 100`, `prefixUnits = 50` give the
increment `100_000`. -/
theorem addLife_renews_expiry_witness :
    ∃ i1 : PrefixInfo,
      addLife (logEnv 1000000 100 (fun _ => 50) (some (leaseOf 5 10), true, none)) [] [47]
        = .returned none [([47], i1, 5)] ∧
      i1.Expiry = (5 + 1000000 / 10 / max 1 (50 / 100)) % 2 ^ 64 ∧
      i1.Owner = [1, 2, 3] ∧ i1.Created = 7 ∧ i1.LastUpdated = 9 ∧ i1.Units = 10 :=
  addLife_renews_expiry (logEnv 1000000 100 (fun _ => 50) (some (leaseOf 5 10), true, none))
    [] [47] (leaseOf 5 10) 10 5 rfl rfl rfl (by decide) (by decide)

/-- C2: when `GetPrefixInfo` reports `found = false` with no error, `addLife`
returns `ErrPrefixMissing` and leaves the database state as it was, whatever
`PutPrefixInfo` is; when the record is found, whatever `addLife` returns is
what `PutPrefixInfo` returned for the renewed record and the prior expiry
read. -/
theorem addLife_missing_lease {σ : Type} (env : Env σ) (db : σ) (pfx : Bytes) :
    (∀ p, env.GetPrefixInfo db pfx = (p, false, none) →
      addLife env db pfx = .returned (some .ErrPrefixMissing) db) ∧
    (∀ i err db1, env.GetPrefixInfo db pfx = (some i, true, none) →
      addLife env db pfx = .returned err db1 →
      env.PutPrefixInfo db pfx
        { i with Expiry := (i.Expiry + env.ExpiryTime / i.Units
            / max 1 (env.prefixUnits pfx / env.PrefixRenewalDiscount)) % 2 ^ 64 }
        i.Expiry = (err, db1)) := by
  refine ⟨?_, ?_⟩
  · intro p hget
    unfold addLife
    rw [hget]
    cases p <;> rfl
  · intro i err db1 hget hret
    exact (addLife_returned_of_found env db pfx i err db1 hget hret).2.2

theorem addLife_missing_lease_witness :
    addLife (logEnv 1000000 100 (fun _ => 50) (none, false, none)) [] [47]
        = .returned (some .ErrPrefixMissing) [] ∧
      (logEnv 1000000 100 (fun _ => 50) (some (leaseOf 5 10), true, none)).PutPrefixInfo
        [] [47] (leaseOf 100005 10) 5 = (none, [([47], leaseOf 100005 10, 5)]) :=
  ⟨(addLife_missing_lease (logEnv 1000000 100 (fun _ => 50) (none, false, none))
      [] [47]).1 none rfl,
    (addLife_missing_lease (logEnv 1000000 100 (fun _ => 50) (some (leaseOf 5 10), true, none))
      [] [47]).2 (leaseOf 5 10) none [([47], leaseOf 100005 10, 5)] rfl (by decide)⟩

/-- C3 fails on the code: for a found lease record with `Units = 0` (here with
`ExpiryTime = 1_000_000`, discount `100`, `prefixUnits = 50`) `addLife` does
not clamp `Units`; the division `ExpiryTime / i.Units` panics and nothing is
written. -/
theorem addLife_units_zero_panics :
    addLife (logEnv 1000000 100 (fun _ => 50) (some (leaseOf 5 0), true, none)) [] [47]
      = .panicked := by
  decide

/-- C7: the penalty divisor of `addLife` is at least 1: it is exactly 1 when
`prefixUnits(prefix) / PrefixRenewalDiscount` is 0 and that quotient
otherwise; so for a found record with `Units = 1` and a quotient of 0 the
renewal does not panic and returns what `PutPrefixInfo` returns on the record
with `Expiry` advanced by `ExpiryTime`. -/
theorem prefixPenalty_at_least_one {σ : Type} (env : Env σ) (db : σ) (pfx : Bytes)
    (hd : 0 < env.PrefixRenewalDiscount) :
    (∃ p, prefixPenalty env pfx = some p ∧ 1 ≤ p ∧
      (env.prefixUnits pfx / env.PrefixRenewalDiscount = 0 → p = 1) ∧
      (env.prefixUnits pfx / env.PrefixRenewalDiscount ≠ 0 →
        p = env.prefixUnits pfx / env.PrefixRenewalDiscount)) ∧
    (∀ i, env.GetPrefixInfo db pfx = (some i, true, none) → i.Units = 1 →
      env.prefixUnits pfx / env.PrefixRenewalDiscount = 0 →
      addLife env db pfx =
        .returned
          (env.PutPrefixInfo db pfx
            { i with Expiry := (i.Expiry + env.ExpiryTime) % 2 ^ 64 } i.Expiry).1
          (env.PutPrefixInfo db pfx
            { i with Expiry := (i.Expiry + env.ExpiryTime) % 2 ^ 64 } i.Expiry).2) := by
  refine ⟨⟨_, prefixPenalty_eq_spec env pfx hd, specPenalty_pos _ _, ?_, ?_⟩, ?_⟩
  · intro hq
    unfold specPenalty
    rw [hq]
    rfl
  · intro hq
    unfold specPenalty
    exact max_eq_right (Nat.one_le_iff_ne_zero.mpr hq)
  · intro i hget hu hq
    have h := addLife_found env db pfx i hget hd (by omega)
    have hinc : specIncrement env.ExpiryTime i.Units (env.prefixUnits pfx)
        env.PrefixRenewalDiscount = env.ExpiryTime := by
      unfold specIncrement specPenalty
      rw [hu, hq]
      simp
    rw [hinc] at h
    exact h

/-- The divide-guard example of the specification: cost 50 and discount 100
give the quotient 0 and the penalty 1; with `Units = 1` the increment is
`ExpiryTime`. -/
theorem prefixPenalty_at_least_one_witness :
    prefixPenalty (logEnv 1000000 100 (fun _ => 50) (some (leaseOf 5 1), true, none)) [47]
        = some 1 ∧
      addLife (logEnv 1000000 100 (fun _ => 50) (some (leaseOf 5 1), true, none)) [] [47]
        = .returned none [([47], leaseOf 1000005 1, 5)] :=
  ⟨by decide,
    (prefixPenalty_at_least_one
      (logEnv 1000000 100 (fun _ => 50) (some (leaseOf 5 1), true, none)) [] [47]
      (by decide)).2 (leaseOf 5 1) rfl rfl (by decide)⟩

/-- C8: for a found lease record (a 64-bit `Expiry`, `Units` and discount not
zero) whose increment `ExpiryTime / Units / penalty` truncates to 0, `addLife`
still calls `PutPrefixInfo`, with the record as read and its `Expiry` as the
prior expiry, and returns what that call returns: `nil` when the write
succeeds. -/
theorem addLife_zero_increment {σ : Type} (env : Env σ) (db : σ) (pfx : Bytes)
    (i : PrefixInfo)
    (hget : env.GetPrefixInfo db pfx = (some i, true, none))
    (hd : 0 < env.PrefixRenewalDiscount) (hu : 0 < i.Units)
    (hrep : i.Expiry < 2 ^ 64)
    (hinc : env.ExpiryTime / i.Units
      / max 1 (env.prefixUnits pfx / env.PrefixRenewalDiscount) = 0) :
    addLife env db pfx
        = .returned (env.PutPrefixInfo db pfx i i.Expiry).1
            (env.PutPrefixInfo db pfx i i.Expiry).2 ∧
      ((env.PutPrefixInfo db pfx i i.Expiry).1 = none →
        addLife env db pfx = .returned none (env.PutPrefixInfo db pfx i i.Expiry).2) := by
  have h := addLife_found env db pfx i hget hd hu
  have hz : specIncrement env.ExpiryTime i.Units (env.prefixUnits pfx)
      env.PrefixRenewalDiscount = 0 := hinc
  have hsame : ({ i with Expiry := (i.Expiry + specIncrement env.ExpiryTime i.Units
      (env.prefixUnits pfx) env.PrefixRenewalDiscount) % expiryModulus } : PrefixInfo) = i := by
    rw [hz, Nat.add_zero]
    unfold expiryModulus
    rw [Nat.mod_eq_of_lt hrep]
  rw [hsame] at h
  refine ⟨h, ?_⟩
  intro hok
  rw [h, hok]

theorem addLife_zero_increment_witness :
    addLife (logEnv 5 100 (fun _ => 50) (some (leaseOf 5 10), true, none)) [] [47]
        = .returned none [([47], leaseOf 5 10, 5)] ∧
      5 / 10 / max 1 (50 / 100) = 0 :=
  ⟨(addLife_zero_increment (logEnv 5 100 (fun _ => 50) (some (leaseOf 5 10), true, none))
      [] [47] (leaseOf 5 10) rfl (by decide) (by decide) (by decide) (by decide)).1,
    by decide⟩

/-! ## `LifelineTx.Execute` -/

/-- C10: `Execute` does not depend on its block time: for any two block times
it yields the same outcome (result and database state), that of `addLife` on
the prefix of the transaction. In particular, for a found record whose
`Expiry` is at most the block time, whatever `Execute` returns is what
`PutPrefixInfo` returned on the record with the advanced expiry, not an
`ErrPrefixMissing` of its own; and with `Units` and discount not zero it does
return that. -/
theorem Execute_ignores_blockTime {σ : Type} (env : Env σ) (l : LifelineTx) (db : σ) :
    (∀ t1 t2, l.Execute env db t1 = l.Execute env db t2) ∧
    (∀ t, l.Execute env db t = addLife env db l.BaseTx.Prefix) ∧
    (∀ t i err db1, env.GetPrefixInfo db l.BaseTx.Prefix = (some i, true, none) →
      i.Expiry ≤ t → l.Execute env db t = .returned err db1 →
      env.PutPrefixInfo db l.BaseTx.Prefix
        { i with Expiry := (i.Expiry + env.ExpiryTime / i.Units
            / max 1 (env.prefixUnits l.BaseTx.Prefix / env.PrefixRenewalDiscount))
            % 2 ^ 64 } i.Expiry = (err, db1)) ∧
    (∀ t i, env.GetPrefixInfo db l.BaseTx.Prefix = (some i, true, none) →
      i.Expiry ≤ t → 0 < i.Units → 0 < env.PrefixRenewalDiscount →
      l.Execute env db t =
        .returned
          (env.PutPrefixInfo db l.BaseTx.Prefix
            { i with Expiry := (i.Expiry + env.ExpiryTime / i.Units
                / max 1 (env.prefixUnits l.BaseTx.Prefix / env.PrefixRenewalDiscount))
                % 2 ^ 64 } i.Expiry).1
          (env.PutPrefixInfo db l.BaseTx.Prefix
            { i with Expiry := (i.Expiry + env.ExpiryTime / i.Units
                / max 1 (env.prefixUnits l.BaseTx.Prefix / env.PrefixRenewalDiscount))
                % 2 ^ 64 } i.Expiry).2) := by
  refine ⟨fun _ _ => rfl, fun _ => rfl, ?_, ?_⟩
  · intro t i err db1 hget _ hret
    exact (addLife_returned_of_found env db l.BaseTx.Prefix i err db1 hget hret).2.2
  · intro t i hget _ hu hd
    exact addLife_found env db l.BaseTx.Prefix i hget hd hu

/-- A lease that expired at time 5 is extended at block time 1000. -/
theorem Execute_ignores_blockTime_witness :
    LifelineTx.Execute (logEnv 1000000 100 (fun _ => 50) (some (leaseOf 5 10), true, none))
        ⟨⟨[47]⟩⟩ [] 1000
      = .returned none [([47], leaseOf 100005 10, 5)] :=
  (Execute_ignores_blockTime (logEnv 1000000 100 (fun _ => 50) (some (leaseOf 5 10), true, none))
    ⟨⟨[47]⟩⟩ []).2.2.2 1000 (leaseOf 5 10) rfl (by decide) (by decide) (by decide)

/-! ## The `create` command -/

/-- C9: `createFunc` never overwrites an existing key file. If `os.Stat`
succeeds it returns `os.ErrExist`, and if `os.Stat` fails with an error that
is not not-exist it returns that error, in both cases leaving the state of the
machine as it was (no key generated, nothing written). Only when `os.Stat`
reports not-exist is a key generated, and a generated key is written to the
path with permission bits `0o600`; so a changed state implies not-exist. -/
theorem createFunc_never_overwrites {ω : Type} (m : Machine ω) (path : String) (w : ω) :
    (m.Stat w path = none → createFunc m path w = (some .ErrExist, w)) ∧
    (∀ err, m.Stat w path = some err → m.isNotExist err = false →
      createFunc m path w = (some err, w)) ∧
    (∀ err pk w1, m.Stat w path = some err → m.isNotExist err = true →
      m.NewPrivateKey w = (.ok pk, w1) →
      createFunc m path w =
        match m.WriteFile w1 path (m.keyBytes pk) 0o600 with
        | (some e, w2) => (some e, w2)
        | (none, w2) => (none, m.Green w2 (m.keyAddress pk) path)) ∧
    ((createFunc m path w).2 ≠ w →
      ∃ err, m.Stat w path = some err ∧ m.isNotExist err = true) := by
  refine ⟨?_, ?_, ?_, ?_⟩
  · intro h
    unfold createFunc
    rw [h]
  · intro err h hne
    unfold createFunc
    rw [h]
    simp [hne]
  · intro err pk w1 h hne hkey
    unfold createFunc
    rw [h]
    simp only [hne, hkey]
    rfl
  · intro hchg
    cases hstat : m.Stat w path with
    | none =>
      exfalso
      apply hchg
      unfold createFunc
      rw [hstat]
    | some err =>
      cases hne : m.isNotExist err with
      | true => exact ⟨err, rfl, hne⟩
      | false =>
        exfalso
        apply hchg
        unfold createFunc
        rw [hstat]
        simp [hne]

/-- With the key file present nothing changes; with the key file absent the
key is written with permission bits `0o600`; a permission error of `os.Stat`
is returned as it is. -/
theorem createFunc_never_overwrites_witness :
    createFunc (listMachine .ErrNotExist ⟨[9, 9], none⟩) "pk" [("pk", [1], 0o600)]
        = (some .ErrExist, [("pk", [1], 0o600)]) ∧
      createFunc (listMachine (.other 13) ⟨[9, 9], none⟩) "pk" []
        = (some (.other 13), []) ∧
      createFunc (listMachine .ErrNotExist ⟨[9, 9], none⟩) "pk" []
        = (none, [("pk", [9, 9], 0o600)]) ∧
      (∃ err, (listMachine .ErrNotExist ⟨[9, 9], none⟩).Stat [] "pk" = some err ∧
        (listMachine .ErrNotExist ⟨[9, 9], none⟩).isNotExist err = true) :=
  ⟨(createFunc_never_overwrites (listMachine .ErrNotExist ⟨[9, 9], none⟩) "pk"
      [("pk", [1], 0o600)]).1 (by decide),
    (createFunc_never_overwrites (listMachine (.other 13) ⟨[9, 9], none⟩) "pk"
      []).2.1 (.other 13) (by decide) (by decide),
    (createFunc_never_overwrites (listMachine .ErrNotExist ⟨[9, 9], none⟩) "pk"
      []).2.2.1 .ErrNotExist ⟨[9, 9], none⟩ [] (by decide) (by decide) rfl,
    (createFunc_never_overwrites (listMachine .ErrNotExist ⟨[9, 9], none⟩) "pk"
      []).2.2.2 (by decide)⟩

/-! ## `addLife` over the lease store of section 4.1 -/

theorem store_get_fault (s : Store) (pfx : Bytes) (e : ChainError)
    (hr : s.readFault = some e) : Store.GetPrefixInfo s pfx = (none, false, some e) := by
  unfold Store.GetPrefixInfo
  rw [hr]

theorem store_get_missing (s : Store) (pfx : Bytes)
    (hr : s.readFault = none) (hp : s.primary pfx = none) :
    Store.GetPrefixInfo s pfx = (none, false, none) := by
  unfold Store.GetPrefixInfo
  rw [hr]
  simp only [hp]

theorem store_get_found (s : Store) (pfx : Bytes) (i : PrefixInfo)
    (hr : s.readFault = none) (hp : s.primary pfx = some i) :
    Store.GetPrefixInfo s pfx = (some i, true, none) := by
  unfold Store.GetPrefixInfo
  rw [hr]
  simp only [hp]

theorem store_put_fault (unset : Nat) (s : Store) (pfx : Bytes) (i : PrefixInfo)
    (lastExpiry : Nat) (e : ChainError) (hw : s.writeFault = some e) :
    Store.PutPrefixInfo unset s pfx i lastExpiry = (some e, s) := by
  unfold Store.PutPrefixInfo
  rw [hw]

theorem store_put_err (unset : Nat) (s : Store) (pfx : Bytes) (i : PrefixInfo)
    (lastExpiry : Nat) : (Store.PutPrefixInfo unset s pfx i lastExpiry).1 = s.writeFault := by
  unfold Store.PutPrefixInfo
  cases s.writeFault <;> rfl

theorem store_put_primary (unset : Nat) (s : Store) (pfx : Bytes) (i : PrefixInfo)
    (lastExpiry : Nat) (hw : s.writeFault = none) :
    (Store.PutPrefixInfo unset s pfx i lastExpiry).2.primary pfx = some i := by
  unfold Store.PutPrefixInfo
  rw [hw]
  simp

/-- Every way `addLife` returns over the lease store: the read failed, the
record is missing, or the record was found and the write was attempted. -/
theorem addLife_store_returned (expiryTime discount : Nat) (units : Bytes → Nat)
    (unset : Nat) (s : Store) (pfx : Bytes) (err : Option ChainError) (s1 : Store)
    (h : addLife (storeEnv expiryTime discount units unset) s pfx = .returned err s1) :
    (∃ e, s.readFault = some e ∧ err = some e ∧ s1 = s) ∨
    (s.readFault = none ∧ s.primary pfx = none ∧
      err = some .ErrPrefixMissing ∧ s1 = s) ∨
    (∃ i, s.readFault = none ∧ s.primary pfx = some i ∧ 0 < i.Units ∧ 0 < discount ∧
      Store.PutPrefixInfo unset s pfx
        { i with Expiry := (i.Expiry + specIncrement expiryTime i.Units (units pfx) discount)
            % expiryModulus } i.Expiry = (err, s1)) := by
  cases hr : s.readFault with
  | some e =>
    have hget : (storeEnv expiryTime discount units unset).GetPrefixInfo s pfx
        = (none, false, some e) := store_get_fault s pfx e hr
    unfold addLife at h
    rw [hget] at h
    injection h with h1 h2
    exact Or.inl ⟨e, rfl, h1.symm, h2.symm⟩
  | none =>
    cases hp : s.primary pfx with
    | none =>
      have hget : (storeEnv expiryTime discount units unset).GetPrefixInfo s pfx
          = (none, false, none) := store_get_missing s pfx hr hp
      unfold addLife at h
      rw [hget] at h
      injection h with h1 h2
      exact Or.inr (Or.inl ⟨rfl, rfl, h1.symm, h2.symm⟩)
    | some i =>
      have hget : (storeEnv expiryTime discount units unset).GetPrefixInfo s pfx
          = (some i, true, none) := store_get_found s pfx i hr hp
      rcases Nat.eq_zero_or_pos discount with hd | hd
      · exfalso
        unfold addLife at h
        rw [hget] at h
        have hpen : prefixPenalty (storeEnv expiryTime discount units unset) pfx = none := by
          unfold prefixPenalty
          have : (storeEnv expiryTime discount units unset).PrefixRenewalDiscount = 0 := hd
          rw [this, goDiv_zero]
        simp only [hpen] at h
        cases h
      · rcases Nat.eq_zero_or_pos i.Units with hu | hu
        · exfalso
          rw [addLife_units_zero _ s pfx i hget hu] at h
          cases h
        · rw [addLife_found _ s pfx i hget hd hu] at h
          injection h with h1 h2
          exact Or.inr (Or.inr ⟨i, rfl, rfl, hu, hd, Prod.ext h1 h2⟩)

theorem store_put_atomic (unset : Nat) (s : Store) (pfx : Bytes) (i : PrefixInfo)
    (lastExpiry : Nat) (err : ChainError) (s1 : Store)
    (h : Store.PutPrefixInfo unset s pfx i lastExpiry = (some err, s1)) : s1 = s := by
  cases hw : s.writeFault with
  | some e =>
    rw [store_put_fault unset s pfx i lastExpiry e hw] at h
    exact (congrArg Prod.snd h).symm
  | none =>
    have herr := store_put_err unset s pfx i lastExpiry
    rw [h, hw] at herr
    cases herr

/-- C6, as stated, fails: `addLife` undoes nothing, so with a `PutPrefixInfo`
that deletes the old index entry before the substrate refuses the next write
(error 3), `addLife` returns that error and the index entry at expiry 5, which
was there before the call, is gone. -/
theorem addLife_error_keeps_partial_write :
    (storeOf [47] (leaseOf 5 10) (some (.substrate 3))).expiryIndex 5 [47] = true ∧
      ∃ s1, addLife (stepwiseEnv 1000000 100 (fun _ => 50))
            (storeOf [47] (leaseOf 5 10) (some (.substrate 3))) [47]
          = .returned (some (.substrate 3)) s1 ∧
        s1.expiryIndex 5 [47] = false :=
  ⟨by decide, _, rfl, by decide⟩

/-- C6 (amended): for every store state, prefix and pair of storage helpers,
an error of `GetPrefixInfo` is returned by `addLife` as it is, with the state
untouched (before any write), and an error of `PutPrefixInfo` on the renewed
record is returned as it is, with the state `PutPrefixInfo` left; `Execute`
returns the same. If `PutPrefixInfo` changes nothing when it fails (the
all-or-nothing batch of section 4.1), then whenever `addLife` returns an error
the state is exactly as before the call, and the error is the one of the
failing step: the read error, `ErrPrefixMissing` for a record not found, or
the write error. -/
theorem addLife_error_leaves_store {σ : Type} (env : Env σ) (db : σ) (pfx : Bytes) :
    (∀ p has err, env.GetPrefixInfo db pfx = (p, has, some err) →
      addLife env db pfx = .returned (some err) db) ∧
    (∀ i err db1, env.GetPrefixInfo db pfx = (some i, true, none) →
      0 < i.Units → 0 < env.PrefixRenewalDiscount →
      env.PutPrefixInfo db pfx
        { i with Expiry := (i.Expiry + env.ExpiryTime / i.Units
            / max 1 (env.prefixUnits pfx / env.PrefixRenewalDiscount)) % 2 ^ 64 }
        i.Expiry = (some err, db1) →
      addLife env db pfx = .returned (some err) db1) ∧
    (∀ (l : LifelineTx) (t : Nat), l.BaseTx.Prefix = pfx →
      l.Execute env db t = addLife env db pfx) ∧
    ((∀ i1 e err db1, env.PutPrefixInfo db pfx i1 e = (some err, db1) → db1 = db) →
      ∀ err db1, addLife env db pfx = .returned (some err) db1 →
        db1 = db ∧
        ((env.GetPrefixInfo db pfx).2.2 = some err ∨
          ((env.GetPrefixInfo db pfx).2 = (false, none) ∧ err = .ErrPrefixMissing) ∨
          (∃ i, env.GetPrefixInfo db pfx = (some i, true, none) ∧
            env.PutPrefixInfo db pfx
              { i with Expiry := (i.Expiry + env.ExpiryTime / i.Units
                  / max 1 (env.prefixUnits pfx / env.PrefixRenewalDiscount)) % 2 ^ 64 }
              i.Expiry = (some err, db)))) := by
  refine ⟨?_, ?_, ?_, ?_⟩
  · intro p has err hget
    unfold addLife
    rw [hget]
    cases p <;> cases has <;> rfl
  · intro i err db1 hget hu hd hput
    have h := addLife_found env db pfx i hget hd hu
    have hput1 : env.PutPrefixInfo db pfx
        { i with Expiry := (i.Expiry + specIncrement env.ExpiryTime i.Units
            (env.prefixUnits pfx) env.PrefixRenewalDiscount) % expiryModulus }
        i.Expiry = (some err, db1) := hput
    rw [hput1] at h
    exact h
  · intro l t hl
    unfold LifelineTx.Execute
    rw [hl]
  · intro hatomic err db1 hret
    rcases hget : env.GetPrefixInfo db pfx with ⟨p, has, e⟩
    cases e with
    | some e0 =>
      unfold addLife at hret
      rw [hget] at hret
      have hret1 : Outcome.returned (some e0) db = Outcome.returned (some err) db1 := by
        cases p <;> cases has <;> exact hret
      injection hret1 with h1 h2
      exact ⟨h2.symm, Or.inl h1⟩
    | none =>
      cases has with
      | false =>
        unfold addLife at hret
        rw [hget] at hret
        have hret1 : Outcome.returned (some ChainError.ErrPrefixMissing) db
            = Outcome.returned (some err) db1 := by
          cases p <;> exact hret
        injection hret1 with h1 h2
        exact ⟨h2.symm, Or.inr (Or.inl ⟨rfl, (Option.some.inj h1).symm⟩)⟩
      | true =>
        cases p with
        | none =>
          unfold addLife at hret
          rw [hget] at hret
          cases hret
        | some i =>
          have hput := (addLife_returned_of_found env db pfx i (some err) db1 hget hret).2.2
          have hdb : db1 = db := hatomic _ _ _ _ hput
          rw [hdb] at hput
          exact ⟨hdb, Or.inr (Or.inr ⟨i, rfl, hput⟩)⟩

/-- Over the lease store of section 4.1: a write the substrate refuses with
error 3 is returned as it is and the store is as before the call; a read the
substrate refuses with error 7 is returned as it is. -/
theorem addLife_error_leaves_store_witness :
    addLife (storeEnv 1000000 100 (fun _ => 50) 0)
          { storeOf [47] (leaseOf 5 10) none with readFault := some (.substrate 7) } [47]
        = .returned (some (.substrate 7))
          { storeOf [47] (leaseOf 5 10) none with readFault := some (.substrate 7) } ∧
      addLife (storeEnv 1000000 100 (fun _ => 50) 0)
          (storeOf [47] (leaseOf 5 10) (some (.substrate 3))) [47]
        = .returned (some (.substrate 3)) (storeOf [47] (leaseOf 5 10) (some (.substrate 3))) ∧
      LifelineTx.Execute (storeEnv 1000000 100 (fun _ => 50) 0) ⟨⟨[47]⟩⟩
          (storeOf [47] (leaseOf 5 10) (some (.substrate 3))) 1000
        = addLife (storeEnv 1000000 100 (fun _ => 50) 0)
          (storeOf [47] (leaseOf 5 10) (some (.substrate 3))) [47] ∧
      storeOf [47] (leaseOf 5 10) (some (.substrate 3))
        = storeOf [47] (leaseOf 5 10) (some (.substrate 3)) :=
  ⟨(addLife_error_leaves_store (storeEnv 1000000 100 (fun _ => 50) 0)
      { storeOf [47] (leaseOf 5 10) none with readFault := some (.substrate 7) } [47]).1
      none false (.substrate 7) rfl,
    (addLife_error_leaves_store (storeEnv 1000000 100 (fun _ => 50) 0)
      (storeOf [47] (leaseOf 5 10) (some (.substrate 3))) [47]).2.1
      (leaseOf 5 10) (.substrate 3) (storeOf [47] (leaseOf 5 10) (some (.substrate 3)))
      rfl (by decide) (by decide) rfl,
    (addLife_error_leaves_store (storeEnv 1000000 100 (fun _ => 50) 0)
      (storeOf [47] (leaseOf 5 10) (some (.substrate 3))) [47]).2.2.1 ⟨⟨[47]⟩⟩ 1000 rfl,
    ((addLife_error_leaves_store (storeEnv 1000000 100 (fun _ => 50) 0)
      (storeOf [47] (leaseOf 5 10) (some (.substrate 3))) [47]).2.2.2
      (fun i1 e err db1 h =>
        store_put_atomic 0 (storeOf [47] (leaseOf 5 10) (some (.substrate 3))) [47] i1 e err db1 h)
      (.substrate 3) (storeOf [47] (leaseOf 5 10) (some (.substrate 3))) rfl).1⟩

/-- What a successful `addLife` does over the lease store: the record was
found, no divisor was zero, and the store left is the one `PutPrefixInfo`
leaves for the renewed record. -/
theorem addLife_store_ok (expiryTime discount : Nat) (units : Bytes → Nat)
    (unset : Nat) (s : Store) (pfx : Bytes) (s1 : Store)
    (h : addLife (storeEnv expiryTime discount units unset) s pfx = .returned none s1) :
    ∃ i, s.primary pfx = some i ∧ s.writeFault = none ∧
      s1 = (Store.PutPrefixInfo unset s pfx
        { i with Expiry := (i.Expiry + specIncrement expiryTime i.Units (units pfx) discount)
            % expiryModulus } i.Expiry).2 := by
  rcases addLife_store_returned expiryTime discount units unset s pfx none s1 h with
    ⟨e, _, he, _⟩ | ⟨_, _, he, _⟩ | ⟨i, _, hp, _, _, hput⟩
  · cases he
  · cases he
  · refine ⟨i, hp, ?_, ?_⟩
    · rw [← store_put_err unset s pfx _ i.Expiry, hput]
    · rw [hput]

/-- Whatever 64-bit value the sentinel of `PutPrefixInfo` is, renewing a lease
whose `Expiry` equals it (increment 1) leaves the old index entry in place
next to the new one. -/
theorem addLife_stale_entry_any_sentinel (unset : Nat) :
    ∃ s1, addLife (storeEnv 1 1 (fun _ => 0) unset)
          (storeOf [47] (leaseOf unset 1) none) [47] = .returned none s1 ∧
      s1.expiryIndex unset [47] = true ∧
      s1.expiryIndex ((unset + 1) % 2 ^ 64) [47] = true := by
  have hget : (storeEnv 1 1 (fun _ => 0) unset).GetPrefixInfo
      (storeOf [47] (leaseOf unset 1) none) [47] = (some (leaseOf unset 1), true, none) :=
    rfl
  refine ⟨_, addLife_found _ _ _ _ hget Nat.one_pos Nat.one_pos, ?_, ?_⟩
  · simp only [storeEnv, Store.PutPrefixInfo, storeOf, leaseOf]
    split <;> simp
  · simp only [storeEnv, Store.PutPrefixInfo, storeOf, leaseOf, specIncrement, specPenalty,
      expiryModulus]
    split
    · simp
    · rename_i h
      simp at h
      omega

/-- C5, as stated, fails when the expiry read is the sentinel of
`PutPrefixInfo` (here 0): the store holds one lease with `Expiry = 0` and its
one index entry at 0; after a successful `addLife` the record has
`Expiry = 1` and the index holds entries at both 0 and 1. -/
theorem addLife_stale_entry_at_sentinel :
    (storeOf [47] (leaseOf 0 1) none).primary [47] = some (leaseOf 0 1) ∧
      (storeOf [47] (leaseOf 0 1) none).soleExpiryEntry [47] 0 ∧
      ∃ s1, addLife (storeEnv 1 1 (fun _ => 0) 0) (storeOf [47] (leaseOf 0 1) none) [47]
          = .returned none s1 ∧
        s1.expiryOf [47] = some 1 ∧
        s1.expiryIndex 0 [47] = true ∧ s1.expiryIndex 1 [47] = true := by
  refine ⟨rfl, ?_, _, rfl, rfl, rfl, rfl⟩
  intro t
  simp [storeOf, leaseOf]

/-- C5 (amended): over the lease store of section 4.1, if prefix `P` has
exactly one expiry-index entry, keyed at the `Expiry` `e` of its record, and
`e` is not the sentinel of `PutPrefixInfo`, then after a successful `addLife`
the record has the renewed expiry, `P` has exactly one expiry-index entry,
keyed at that expiry, and none at `e` when the two differ; with the renewed
expiry passed as the prior expiry the index would have been left as it
was. -/
theorem addLife_keeps_sole_expiry_entry (expiryTime discount : Nat)
    (units : Bytes → Nat) (unset : Nat) (s : Store) (pfx : Bytes) (i : PrefixInfo)
    (s1 : Store)
    (hi : s.primary pfx = some i)
    (hsole : s.soleExpiryEntry pfx i.Expiry)
    (hunset : i.Expiry ≠ unset)
    (hok : addLife (storeEnv expiryTime discount units unset) s pfx = .returned none s1) :
    ∃ i1, s1.primary pfx = some i1 ∧
      i1.Expiry = (i.Expiry + expiryTime / i.Units / max 1 (units pfx / discount)) % 2 ^ 64 ∧
      s1.soleExpiryEntry pfx i1.Expiry ∧
      (i1.Expiry ≠ i.Expiry → s1.expiryIndex i.Expiry pfx = false) ∧
      (Store.PutPrefixInfo unset s pfx i1 i1.Expiry).2.expiryIndex = s.expiryIndex := by
  obtain ⟨i0, hp, hw, hs1⟩ := addLife_store_ok expiryTime discount units unset s pfx s1 hok
  rw [hi] at hp
  cases hp
  have hsole1 : s1.soleExpiryEntry pfx
      ((i.Expiry + specIncrement expiryTime i.Units (units pfx) discount) % expiryModulus) := by
    intro t
    rw [hs1]
    unfold Store.PutPrefixInfo
    rw [hw]
    by_cases hsame : i.Expiry
        = (i.Expiry + specIncrement expiryTime i.Units (units pfx) discount) % expiryModulus
    · simp only [ne_eq, hsame.symm, not_true_eq_false, if_false]
      exact hsole t
    · simp only [ne_eq, hsame, not_false_eq_true, if_true, and_true]
      by_cases h1 : t
          = (i.Expiry + specIncrement expiryTime i.Units (units pfx) discount) % expiryModulus
      · simp [h1]
      · by_cases h2 : t = i.Expiry
        · simp [h1, h2, hunset, hsame]
        · simp only [h1, h2, if_false, and_false, iff_false]
          intro hidx
          exact h2 ((hsole t).mp hidx)
  refine ⟨{ i with Expiry := (i.Expiry
    + specIncrement expiryTime i.Units (units pfx) discount) % expiryModulus },
    ?_, rfl, hsole1, ?_, ?_⟩
  · rw [hs1]
    exact store_put_primary unset s pfx _ i.Expiry hw
  · intro hne
    cases hidx : s1.expiryIndex i.Expiry pfx with
    | false => rfl
    | true => exact absurd ((hsole1 i.Expiry).mp hidx).symm hne
  · unfold Store.PutPrefixInfo
    rw [hw]
    simp

theorem addLife_keeps_sole_expiry_entry_witness :
    ∃ i1, (Store.PutPrefixInfo 0 (storeOf [47] (leaseOf 5 10) none) [47]
          (leaseOf 100005 10) 5).2.primary [47] = some i1 ∧
      i1.Expiry = (5 + 1000000 / 10 / max 1 (50 / 100)) % 2 ^ 64 ∧
      (Store.PutPrefixInfo 0 (storeOf [47] (leaseOf 5 10) none) [47]
          (leaseOf 100005 10) 5).2.soleExpiryEntry [47] i1.Expiry ∧
      (i1.Expiry ≠ 5 →
        (Store.PutPrefixInfo 0 (storeOf [47] (leaseOf 5 10) none) [47]
          (leaseOf 100005 10) 5).2.expiryIndex 5 [47] = false) ∧
      (Store.PutPrefixInfo 0 (storeOf [47] (leaseOf 5 10) none) [47] i1 i1.Expiry).2.expiryIndex
        = (storeOf [47] (leaseOf 5 10) none).expiryIndex :=
  addLife_keeps_sole_expiry_entry 1000000 100 (fun _ => 50) 0
    (storeOf [47] (leaseOf 5 10) none) [47] (leaseOf 5 10)
    (Store.PutPrefixInfo 0 (storeOf [47] (leaseOf 5 10) none) [47] (leaseOf 100005 10) 5).2
    rfl (fun t => by simp [storeOf, leaseOf]) (by decide) rfl

/-! ## Expiry across successive renewals -/

/-- After `n` successful renewals none of which wraps, the record of the
prefix is the initial one with `n` increments added to its expiry. -/
theorem renewTimes_record (expiryTime discount : Nat) (units : Bytes → Nat)
    (unset : Nat) (pfx : Bytes) (n : Nat) :
    ∀ (s sn : Store) (i : PrefixInfo),
      renewTimes (storeEnv expiryTime discount units unset) pfx n s = some sn →
      s.primary pfx = some i →
      i.Expiry + n * specIncrement expiryTime i.Units (units pfx) discount < expiryModulus →
      sn.primary pfx = some
        { i with Expiry := i.Expiry + n * specIncrement expiryTime i.Units (units pfx) discount } := by
  induction n with
  | zero =>
    intro s sn i hrun hi _
    unfold renewTimes at hrun
    cases hrun
    rw [hi]
    simp
  | succ n ih =>
    intro s sn i hrun hi hno
    unfold renewTimes at hrun
    cases hA : addLife (storeEnv expiryTime discount units unset) s pfx with
    | panicked =>
      rw [hA] at hrun
      cases hrun
    | returned err s1 =>
      rw [hA] at hrun
      cases err with
      | some e => cases hrun
      | none =>
        simp only at hrun
        obtain ⟨i0, hp, hw, hs1⟩ :=
          addLife_store_ok expiryTime discount units unset s pfx s1 hA
        rw [hi] at hp
        cases hp
        have hstep : i.Expiry + specIncrement expiryTime i.Units (units pfx) discount
            < expiryModulus := by
          have : (n + 1) * specIncrement expiryTime i.Units (units pfx) discount
              = n * specIncrement expiryTime i.Units (units pfx) discount
                + specIncrement expiryTime i.Units (units pfx) discount := Nat.succ_mul _ _
          omega
        have hrec : s1.primary pfx = some
            { i with Expiry := i.Expiry + specIncrement expiryTime i.Units (units pfx) discount } := by
          rw [hs1, store_put_primary unset s pfx _ i.Expiry hw, Nat.mod_eq_of_lt hstep]
        have hnext := ih s1 sn _ hrun hrec (by
          have : (n + 1) * specIncrement expiryTime i.Units (units pfx) discount
              = n * specIncrement expiryTime i.Units (units pfx) discount
                + specIncrement expiryTime i.Units (units pfx) discount := Nat.succ_mul _ _
          show i.Expiry + specIncrement expiryTime i.Units (units pfx) discount
            + n * specIncrement expiryTime i.Units (units pfx) discount < expiryModulus
          omega)
        rw [hnext]
        have : (n + 1) * specIncrement expiryTime i.Units (units pfx) discount
            = n * specIncrement expiryTime i.Units (units pfx) discount
              + specIncrement expiryTime i.Units (units pfx) discount := Nat.succ_mul _ _
        congr 2
        show i.Expiry + specIncrement expiryTime i.Units (units pfx) discount
            + n * specIncrement expiryTime i.Units (units pfx) discount
          = i.Expiry + (n + 1) * specIncrement expiryTime i.Units (units pfx) discount
        omega

/-- C4, as stated, fails: from the record with `Expiry = 2 ^ 64 - 1` and
`Units = 1` (with `ExpiryTime = 1`, discount 1, `prefixUnits = 0`, so that the
increment is 1) one successful `addLife` leaves `Expiry = 0`. -/
theorem renewal_expiry_decreases :
    (storeOf [47] (leaseOf (2 ^ 64 - 1) 1) none).expiryOf [47] = some (2 ^ 64 - 1) ∧
      specIncrement 1 1 0 1 = 1 ∧
      ∃ s1, addLife (storeEnv 1 1 (fun _ => 0) 0)
            (storeOf [47] (leaseOf (2 ^ 64 - 1) 1) none) [47] = .returned none s1 ∧
        renewTimes (storeEnv 1 1 (fun _ => 0) 0) [47] 1
            (storeOf [47] (leaseOf (2 ^ 64 - 1) 1) none) = some s1 ∧
        s1.expiryOf [47] = some 0 :=
  ⟨by decide, by decide, _, rfl, rfl, by decide⟩

/-- C4 (amended): over the lease store of section 4.1, take the states after
`j` and after `k ≥ j` successful `addLife` calls on one prefix, no other writer
in between. If the expiry read first plus `k` increments stays below `2 ^ 64`
(no addition of the sequence wraps), the expiry after `k` calls is at least
the expiry after `j` calls, and strictly greater when `j < k` and the
increment `ExpiryTime / Units / penalty` is positive. -/
theorem renewal_expiry_monotone (expiryTime discount : Nat) (units : Bytes → Nat)
    (unset : Nat) (pfx : Bytes) (s sj sk : Store) (i : PrefixInfo) (j k : Nat)
    (hjk : j ≤ k)
    (hj : renewTimes (storeEnv expiryTime discount units unset) pfx j s = some sj)
    (hk : renewTimes (storeEnv expiryTime discount units unset) pfx k s = some sk)
    (hi : s.primary pfx = some i)
    (hno : i.Expiry + k * (expiryTime / i.Units / max 1 (units pfx / discount)) < 2 ^ 64) :
    ∃ ej ek, sj.expiryOf pfx = some ej ∧ sk.expiryOf pfx = some ek ∧ ej ≤ ek ∧
      (j < k → 0 < expiryTime / i.Units / max 1 (units pfx / discount) → ej < ek) := by
  have hmul : j * specIncrement expiryTime i.Units (units pfx) discount
      ≤ k * specIncrement expiryTime i.Units (units pfx) discount :=
    Nat.mul_le_mul_right _ hjk
  have hnok : i.Expiry + k * specIncrement expiryTime i.Units (units pfx) discount
      < expiryModulus := hno
  have hrj := renewTimes_record expiryTime discount units unset pfx j s sj i hj hi
    (lt_of_le_of_lt (Nat.add_le_add_left hmul _) hnok)
  have hrk := renewTimes_record expiryTime discount units unset pfx k s sk i hk hi hnok
  refine ⟨i.Expiry + j * specIncrement expiryTime i.Units (units pfx) discount,
    i.Expiry + k * specIncrement expiryTime i.Units (units pfx) discount,
    ?_, ?_, Nat.add_le_add_left hmul _, ?_⟩
  · unfold Store.expiryOf
    rw [hrj]
    rfl
  · unfold Store.expiryOf
    rw [hrk]
    rfl
  · intro hlt hpos
    exact Nat.add_lt_add_left (Nat.mul_lt_mul_of_pos_right hlt hpos) _

/-- Two renewals with `ExpiryTime = 1_000_000`, `Units = 10`, discount 100 and
`prefixUnits = 50` take the expiry from 5 to 100_005 and then to 200_005. -/
theorem renewal_expiry_monotone_witness :
    ∃ ej ek,
      (Store.PutPrefixInfo 0 (storeOf [47] (leaseOf 5 10) none) [47]
        (leaseOf 100005 10) 5).2.expiryOf [47] = some ej ∧
      (Store.PutPrefixInfo 0
        (Store.PutPrefixInfo 0 (storeOf [47] (leaseOf 5 10) none) [47]
          (leaseOf 100005 10) 5).2 [47] (leaseOf 200005 10) 100005).2.expiryOf [47]
        = some ek ∧
      ej ≤ ek ∧ (1 < 2 → 0 < 1000000 / 10 / max 1 (50 / 100) → ej < ek) :=
  renewal_expiry_monotone 1000000 100 (fun _ => 50) 0 [47]
    (storeOf [47] (leaseOf 5 10) none)
    (Store.PutPrefixInfo 0 (storeOf [47] (leaseOf 5 10) none) [47]
      (leaseOf 100005 10) 5).2
    (Store.PutPrefixInfo 0
      (Store.PutPrefixInfo 0 (storeOf [47] (leaseOf 5 10) none) [47]
        (leaseOf 100005 10) 5).2 [47] (leaseOf 200005 10) 100005).2
    (leaseOf 5 10) 1 2 (by decide) rfl rfl rfl (by decide)

end SpacesVM
